import Mathlib

set_option maxHeartbeats 1000000

/- Verification of the jjazy FFI layer (src/rust/src/lib.rs): a shallow
embedding of its revision resolution, ancestry checks, diff classification
and rendering, and the workspace / bookmark mutation operations. -/

namespace Jjazy

/-- Commit identifiers, modelled by their printable hex form as a list of
characters: the source compares commit ids through their `hex()` strings and
`starts_with`. -/
abbrev CommitId := List Char

/-- A tree entry value (TreeValue restricted to what the source inspects): a
file with a blob id and executable bit, or any other kind of entry. -/
inductive TreeValue where
  | file (fileId : CommitId) (executable : Bool)
  | other
deriving DecidableEq

/-- A possibly conflicted merged tree value (Merge of Option TreeValue):
`resolved none` is an absent path, `resolved (some v)` a present value, and
`conflicted` a merge whose as_resolved() is None. -/
inductive MergeValue where
  | resolved (value : Option TreeValue)
  | conflicted
deriving DecidableEq

/-- is_absent on a merged tree value: true exactly for a resolved absent
value (conflicted values count as present, as in jj_lib). -/
def MergeValue.isAbsent : MergeValue → Bool
  | .resolved none => true
  | _ => false

/-- A tree maps repository paths to merged values (MergedTree::path_value,
modelled as total: backend read errors on tree lookup are out of scope). -/
abbrev Tree := String → MergeValue

def treeEmpty : Tree := fun _ => MergeValue.resolved none

/-- A commit as the source reads it: its id, parent ids and tree. -/
structure Commit where
  id : CommitId
  parents : List CommitId
  tree : Tree

/-- The external object store interface: commit lookup by id, the root commit
id, and file blob reading (read_file followed by read_to_end, collapsed to an
optional string; none models any read failure). -/
structure Store where
  getCommit : CommitId → Option Commit
  rootId : CommitId
  readFile : CommitId → Option String

/-- The mutable view portion of a repository snapshot: workspace name to
working-copy commit, bookmark name to its as_normal target (none models an
absent or conflicted ref), and remote bookmark added ids. -/
structure View where
  wcCommitIds : List (String × CommitId)
  localBookmarks : List (String × Option CommitId)
  remoteBookmarks : List (String × List CommitId)

structure RepoSnapshot where
  store : Store
  view : View

/-- The process-held handle: current snapshot plus the workspace the handle
was opened in (RepoHandle in the source). -/
structure RepoHandle where
  repo : RepoSnapshot
  currentWorkspace : String

/-- FFI result: payload on success or an error message (JjResult). -/
inductive JjResult where
  | success (data : String)
  | error (msg : String)
deriving DecidableEq

def JjResult.isError : JjResult → Bool
  | .error _ => true
  | .success _ => false

/-- Push every element of xs onto a stack in order (Vec::push in a for loop;
Vec::pop takes the most recently pushed element, i.e. the head here). -/
def pushAll {α : Type} (stack xs : List α) : List α :=
  xs.foldl (fun s x => x :: s) stack

/-- View::get_local_bookmark followed by as_normal. -/
def View.getLocalBookmarkNormal (v : View) (name : String) : Option CommitId :=
  match v.localBookmarks.find? (fun p => p.1 == name) with
  | some p => p.2
  | none => none

/-- set_local_bookmark_target with a normal target: replaces any existing
binding for the name (overwriting conflicted state) or inserts a new one. -/
def View.setLocalBookmark (v : View) (name : String) (target : CommitId) : View :=
  { v with localBookmarks :=
      if v.localBookmarks.any (fun p => p.1 == name) then
        v.localBookmarks.map (fun p => if p.1 == name then (name, some target) else p)
      else v.localBookmarks ++ [(name, some target)] }

/-- set_wc_commit: registers (or replaces) a workspace's working-copy commit. -/
def setWc (m : List (String × CommitId)) (k : String) (v : CommitId) :
    List (String × CommitId) :=
  if m.any (fun p => p.1 == k) then m.map (fun p => if p.1 == k then (k, v) else p)
  else m ++ [(k, v)]

/-- The depth cap of resolve_revision_specs (src/rust/src/lib.rs line 342). -/
def MAX_REVISION_SEARCH_DEPTH : Nat := 10000

/-- The while loop of resolve_revision_specs (lines 359-383): pop a candidate,
stop with none once the visited set has reached the cap, skip already visited
ids, return the id on a hex-prefix match without fetching the commit, and
otherwise push the not-yet-visited parents.  fuel bounds the loop, which in
the source terminates because the store is finite. -/
def resolveLoopCapped (s : Store) (spec : List Char) :
    Nat → List CommitId → List CommitId → Option CommitId
  | 0, _, _ => none
  | n + 1, visited, toVisit =>
    match toVisit with
    | [] => none
    | commit_id :: rest =>
      if MAX_REVISION_SEARCH_DEPTH ≤ visited.length then none
      else if commit_id ∈ visited then resolveLoopCapped s spec n visited rest
      else
        if spec.isPrefixOf commit_id then some commit_id
        else
          match s.getCommit commit_id with
          | some c =>
            resolveLoopCapped s spec n (commit_id :: visited)
              (c.parents.foldl (fun st p => if p ∈ commit_id :: visited then st else p :: st)
                rest)
          | none => resolveLoopCapped s spec n (commit_id :: visited) rest

/-- resolve_revision_specs (lines 344-392): resolve each spec with the capped
walk seeded from all workspace working-copy commits; the first failure aborts
with a NotFound error. -/
def resolve_revision_specs (h : RepoHandle) (fuel : Nat) :
    List (List Char) → Except String (List CommitId)
  | [] => Except.ok []
  | spec :: rest =>
    match resolveLoopCapped h.repo.store spec fuel []
        (pushAll [] (h.repo.view.wcCommitIds.map Prod.snd)) with
    | some id =>
      match resolve_revision_specs h fuel rest with
      | Except.ok ids => Except.ok (id :: ids)
      | Except.error e => Except.error e
    | none => Except.error ("Revision not found: " ++ String.mk spec)

/-- The inline revision search of jj_set_bookmark (lines 1544-1585) and
jj_get_revision_diff (lines 1338-1380), which are textually identical: like
the capped walk but with NO depth cap, and on a prefix match the commit is
fetched (a fetch failure continues the search). -/
def findCommitLoop (s : Store) (spec : List Char) :
    Nat → List CommitId → List CommitId → Option Commit
  | 0, _, _ => none
  | n + 1, visited, toVisit =>
    match toVisit with
    | [] => none
    | commit_id :: rest =>
      if commit_id ∈ visited then findCommitLoop s spec n visited rest
      else
        if spec.isPrefixOf commit_id then
          match s.getCommit commit_id with
          | some c => some c
          | none => findCommitLoop s spec n (commit_id :: visited) rest
        else
          match s.getCommit commit_id with
          | some c =>
            findCommitLoop s spec n (commit_id :: visited)
              (c.parents.foldl (fun st p => if p ∈ commit_id :: visited then st else p :: st)
                rest)
          | none => findCommitLoop s spec n (commit_id :: visited) rest

/-- The inline search seeded from all workspace working-copy commits. -/
def findCommitByPrefix (h : RepoHandle) (spec : List Char) (fuel : Nat) : Option Commit :=
  findCommitLoop h.repo.store spec fuel []
    (pushAll [] (h.repo.view.wcCommitIds.map Prod.snd))

/-- The bounded ancestry walk used both by the immutability check (lines
1616-1640, bound 200) and the backwards-move check (lines 1661-1684, bound
100): a for loop over at most `bound` iterations that pops an id, skips
already checked ids, succeeds on reaching the target, and otherwise pushes
all parents unconditionally. -/
def ancestorWalk (s : Store) (target : CommitId) :
    Nat → List CommitId → List CommitId → Bool
  | 0, _, _ => false
  | n + 1, checked, toCheck =>
    match toCheck with
    | [] => false
    | commit_id :: rest =>
      if commit_id ∈ checked then ancestorWalk s target n checked rest
      else if commit_id = target then true
      else
        match s.getCommit commit_id with
        | some c => ancestorWalk s target n (commit_id :: checked) (pushAll rest c.parents)
        | none => ancestorWalk s target n (commit_id :: checked) rest

/-- jj_set_bookmark (lines 1502-1712): resolve the revision prefix, run the
root-commit and remote-head immutability checks unless ignore_immutable, run
the backwards-move check unless allow_backwards, then set the bookmark in a
transaction.  txOk models the external transaction commit outcome; fuel
bounds the resolution loop. -/
def jj_set_bookmark (h : RepoHandle) (bookmarkName : String) (revisionStr : List Char)
    (allow_backwards ignore_immutable : Bool) (fuel : Nat) (txOk : Bool) :
    JjResult × RepoHandle :=
  match findCommitByPrefix h revisionStr fuel with
  | none => (JjResult.error ("Revision not found: " ++ String.mk revisionStr), h)
  | some target_commit =>
    if ignore_immutable = false ∧ target_commit.id = h.repo.store.rootId then
      (JjResult.error "Cannot set bookmark on immutable revision (root commit)", h)
    else
      let remote_heads :=
        h.repo.view.remoteBookmarks.foldl (fun acc p => pushAll acc p.2) []
      if ignore_immutable = false ∧ remote_heads ≠ [] ∧
          ancestorWalk h.repo.store target_commit.id 200 [] remote_heads = true then
        (JjResult.error "Cannot set bookmark on immutable revision (already pushed)", h)
      else
        let backwards :=
          match h.repo.view.getLocalBookmarkNormal bookmarkName with
          | some cur =>
            match h.repo.store.getCommit cur with
            | some current_commit =>
              ancestorWalk h.repo.store target_commit.id 100 [] [current_commit.id]
            | none => false
          | none => false
        if allow_backwards = false ∧ backwards = true then
          (JjResult.error "Cannot move bookmark backwards (use allow_backwards flag)", h)
        else
          let view' := h.repo.view.setLocalBookmark bookmarkName target_commit.id
          if txOk then
            (JjResult.success "", { h with repo := { h.repo with view := view' } })
          else (JjResult.error "Failed to commit transaction", h)

/-- jj_workspace_forget (lines 602-659): reject the current workspace first,
then a name absent from the view, then remove the entry in a transaction. -/
def jj_workspace_forget (h : RepoHandle) (ws_name : String) (txOk : Bool) :
    JjResult × RepoHandle :=
  if ws_name = h.currentWorkspace then
    (JjResult.error "Cannot forget current workspace", h)
  else if ws_name ∉ h.repo.view.wcCommitIds.map Prod.fst then
    (JjResult.error ("Workspace not found: " ++ ws_name), h)
  else
    let view' := { h.repo.view with
      wcCommitIds := h.repo.view.wcCommitIds.filter (fun p => p.1 != ws_name) }
    if txOk then (JjResult.success "", { h with repo := { h.repo with view := view' } })
    else (JjResult.error "Failed to commit transaction", h)

/-- Filesystem state for jj_workspace_add: which paths exist, which are plain
files, which are directories with entries other than the reserved ".jj"
subdirectory, and an effect log of create_dir_all calls. -/
structure FS where
  existing : List String
  fileAt : List String
  nonEmptyDir : List String
  created : List String
deriving DecidableEq

/-- get_current_wc_parent_ids (lines 323-337). -/
def getCurrentWcParentIds (h : RepoHandle) : Except String (List CommitId) :=
  match h.repo.view.wcCommitIds.find? (fun p => p.1 == h.currentWorkspace) with
  | none => Except.error "No working copy found for current workspace"
  | some p =>
    match h.repo.store.getCommit p.2 with
    | none => Except.error "Failed to get working copy commit"
    | some c => Except.ok c.parents

/-- The tail of jj_workspace_add after destination validation (lines
508-595): parent determination, the root fallback, workspace initialisation
(initOk), parent commit fetch, the new commit write (newCommitId, none
modelling a write failure), set_wc_commit and the transaction commit. -/
def workspaceAddRest (h : RepoHandle) (fs : FS) (wsName : String)
    (revisionSpecs : List (List Char)) (fuel : Nat) (initOk : Bool)
    (newCommitId : Option CommitId) (txOk : Bool) : JjResult × RepoHandle × FS :=
  match (if revisionSpecs.isEmpty then getCurrentWcParentIds h
         else resolve_revision_specs h fuel revisionSpecs) with
  | Except.error e => (JjResult.error e, h, fs)
  | Except.ok pids =>
    let parent_ids := if pids.isEmpty then [h.repo.store.rootId] else pids
    if initOk = false then (JjResult.error "Failed to create workspace", h, fs)
    else
      let parents := parent_ids.filterMap h.repo.store.getCommit
      if parents.isEmpty then (JjResult.error "Failed to resolve parent commits", h, fs)
      else
        match newCommitId with
        | none => (JjResult.error "Failed to write commit", h, fs)
        | some ncid =>
          let newCommit : Commit :=
            { id := ncid, parents := parents.map Commit.id,
              tree := match parents.head? with | some p => p.tree | none => treeEmpty }
          let store' : Store :=
            { getCommit := fun i => if i = ncid then some newCommit else h.repo.store.getCommit i,
              rootId := h.repo.store.rootId, readFile := h.repo.store.readFile }
          let view' : View :=
            { h.repo.view with wcCommitIds := setWc h.repo.view.wcCommitIds wsName ncid }
          if txOk then
            (JjResult.success "", { h with repo := { store := store', view := view' } }, fs)
          else (JjResult.error "Failed to commit transaction", h, fs)

/-- jj_workspace_add (lines 401-596).  Destination validation and creation
(lines 470-506) happen FIRST: an existing file or non-empty directory is
rejected, a missing directory is created (createOk models create_dir_all
success and the creation is logged in fs.created); only then are the parent
revisions resolved and the transactional tail run. -/
def jj_workspace_add (h : RepoHandle) (fs : FS) (destPath wsName : String)
    (revisionSpecs : List (List Char)) (fuel : Nat)
    (createOk initOk : Bool) (newCommitId : Option CommitId) (txOk : Bool) :
    JjResult × RepoHandle × FS :=
  if destPath ∈ fs.existing then
    if destPath ∈ fs.fileAt then
      (JjResult.error ("Path exists and is a file: " ++ destPath), h, fs)
    else if destPath ∈ fs.nonEmptyDir then
      (JjResult.error ("Directory is not empty: " ++ destPath), h, fs)
    else workspaceAddRest h fs wsName revisionSpecs fuel initOk newCommitId txOk
  else
    if createOk then
      workspaceAddRest h
        { fs with existing := destPath :: fs.existing, created := destPath :: fs.created }
        wsName revisionSpecs fuel initOk newCommitId txOk
    else (JjResult.error ("Failed to create directory " ++ destPath), h, fs)

/-- Rust str::lines on the underlying characters: split at every newline,
strip a carriage return preceding a newline, drop nothing else; a final
segment without trailing newline is kept, a trailing newline adds no empty
segment.  acc holds the current line reversed. -/
def stripCR (cs : List Char) : List Char :=
  match cs with
  | '\r' :: rest => rest
  | _ => cs

def rustLinesAux : List Char → List Char → List String
  | [], [] => []
  | [], acc => [String.mk acc.reverse]
  | '\n' :: rest, acc => String.mk (stripCR acc).reverse :: rustLinesAux rest []
  | c :: rest, acc => rustLinesAux rest (c :: acc)

def rustLines (s : String) : List String := rustLinesAux s.data []

/-- One output line per iteration of the greedy diff loop of
generate_unified_diff (lines 1076-1097): a context line when both cursors
match, otherwise an insertion when the current after-line does not occur in
the remaining before-lines, otherwise a deletion.  The fuel (one unit per
emitted line) makes the loop structural; before.length + after.length always
suffices. -/
def diffLoopLinesF : Nat → List String → List String → List String
  | 0, _, _ => []
  | _ + 1, [], [] => []
  | n + 1, [], a :: restA => ("+" ++ a) :: diffLoopLinesF n [] restA
  | n + 1, b :: restB, [] => ("-" ++ b) :: diffLoopLinesF n restB []
  | n + 1, b :: restB, a :: restA =>
    if b = a then (" " ++ b) :: diffLoopLinesF n restB restA
    else if a ∈ b :: restB then ("-" ++ b) :: diffLoopLinesF n restB (a :: restA)
    else ("+" ++ a) :: diffLoopLinesF n (b :: restB) restA

def diffLoopLines (before_lines after_lines : List String) : List String :=
  diffLoopLinesF (before_lines.length + after_lines.length) before_lines after_lines

/-- The synthetic hunk header of generate_unified_diff (lines 1070-1074). -/
def hunkHeader (n m : Nat) : String :=
  "@@ -1," ++ toString n ++ " +1," ++ toString m ++ " @@\n"

/-- generate_unified_diff (lines 1056-1098): empty output when both sides
have no lines, otherwise the synthetic hunk header followed by the greedy
line diff, one line per loop iteration, each terminated by a newline. -/
def generate_unified_diff (before after : String) : String :=
  let before_lines := rustLines before
  let after_lines := rustLines after
  if max before_lines.length after_lines.length = 0 then ""
  else
    hunkHeader before_lines.length after_lines.length ++
      String.join ((diffLoopLines before_lines after_lines).map (fun l => l ++ "\n"))

/-- get_file_content (lines 1032-1054): a resolved file value is read from
the store (any failure yields the empty string); absent, conflicted and
non-file values yield the empty string. -/
def get_file_content (s : Store) (tv : MergeValue) : String :=
  match tv with
  | .resolved (some (TreeValue.file fid _)) =>
    match s.readFile fid with
    | some content => content
    | none => ""
  | _ => ""

/-- The per-entry rendering of the jj_get_diff loop body (lines 977-1026):
modified files get the git header, both path markers and the unified diff;
added/deleted files get the single-sided block; every entry is followed by a
blank separator line. -/
def renderDiffEntry (s : Store) (path : String) (before after : MergeValue) : String :=
  (if before.isAbsent = false ∧ after.isAbsent = false then
      "diff --git a/" ++ path ++ " b/" ++ path ++ "\n" ++ ("--- a/" ++ path ++ "\n") ++
        ("+++ b/" ++ path ++ "\n") ++
        generate_unified_diff (get_file_content s before) (get_file_content s after)
    else if before.isAbsent = true ∧ after.isAbsent = false then
      "diff --git a/" ++ path ++ " b/" ++ path ++ "\n" ++ "new file\n" ++ "--- /dev/null\n" ++
        ("+++ b/" ++ path ++ "\n") ++
        String.join ((rustLines (get_file_content s after)).map (fun l => "+" ++ l ++ "\n"))
    else if before.isAbsent = false ∧ after.isAbsent = true then
      "diff --git a/" ++ path ++ " b/" ++ path ++ "\n" ++ "deleted file\n" ++
        ("--- a/" ++ path ++ "\n") ++ "+++ /dev/null\n" ++
        String.join ((rustLines (get_file_content s before)).map (fun l => "-" ++ l ++ "\n"))
    else "") ++ "\n"

/-- The before/after values of one tree diff entry, reduced to the absence
bits the classification reads. -/
structure DiffValuesAbs where
  beforeAbsent : Bool
  afterAbsent : Bool
deriving DecidableEq

/-- One entry from the tree diff stream; values is none when the entry's
values field was an Err (such entries are skipped by `continue`). -/
structure WcDiffEntry where
  path : String
  values : Option DiffValuesAbs
deriving DecidableEq

structure FileChangeInfo where
  path : String
  status : String
deriving DecidableEq

/-- The status computation of jj_get_working_copy_changes (lines 724-730). -/
def classifyStatus (beforeAbsent afterAbsent : Bool) : String :=
  if beforeAbsent && !afterAbsent then "added"
  else if !beforeAbsent && afterAbsent then "deleted"
  else "modified"

/-- The collection loop of jj_get_working_copy_changes (lines 714-737):
entries with Err values are skipped, the rest are classified. -/
def jj_get_working_copy_changes_entries (entries : List WcDiffEntry) : List FileChangeInfo :=
  entries.filterMap fun e =>
    e.values.map fun v =>
      { path := e.path, status := classifyStatus v.beforeAbsent v.afterAbsent }

structure FileContents where
  before : String
  after : String
  path : String
deriving DecidableEq

/-- jj_get_file_contents (lines 1222-1314): find the current working copy
commit; with no parent return empty contents immediately (before any path
validation); otherwise fetch the first parent, validate the path
(RepoPathBuf::from_internal_string, abstracted as validPath) and render both
sides through get_file_content. -/
def jj_get_file_contents (h : RepoHandle) (validPath : String → Bool) (path : String) :
    Except String FileContents :=
  match h.repo.view.wcCommitIds.find? (fun p => p.1 == h.currentWorkspace) with
  | none => Except.error "No working copy found for current workspace"
  | some p =>
    match h.repo.store.getCommit p.2 with
    | none => Except.error "Failed to get working copy commit"
    | some wc =>
      match wc.parents with
      | [] => Except.ok { before := "", after := "", path := path }
      | pId :: _ =>
        match h.repo.store.getCommit pId with
        | none => Except.error "Failed to get parent commit"
        | some parent =>
          if validPath path then
            Except.ok
              { before := get_file_content h.repo.store (parent.tree path),
                after := get_file_content h.repo.store (wc.tree path), path := path }
          else Except.error ("Invalid path: " ++ path)

/- Concrete instances used for counterexamples and witnesses. -/

def rootCommitW : Commit := { id := ['a'], parents := [], tree := treeEmpty }

def childCommitW : Commit := { id := ['b'], parents := [['a']], tree := treeEmpty }

def storeW : Store :=
  { getCommit := fun id =>
      if id = ['a'] then some rootCommitW
      else if id = ['b'] then some childCommitW
      else none,
    rootId := ['a'],
    readFile := fun _ => none }

def viewW : View :=
  { wcCommitIds := [("default", ['b'])], localBookmarks := [], remoteBookmarks := [] }

def handleW : RepoHandle :=
  { repo := { store := storeW, view := viewW }, currentWorkspace := "default" }

def viewB : View :=
  { wcCommitIds := [("default", ['b'])], localBookmarks := [("main", some ['b'])],
    remoteBookmarks := [] }

def handleB : RepoHandle :=
  { repo := { store := storeW, view := viewB }, currentWorkspace := "default" }

def fs0 : FS := { existing := [], fileAt := [], nonEmptyDir := [], created := [] }

def storeFiles : Store :=
  { getCommit := fun _ => none, rootId := ['a'],
    readFile := fun id =>
      if id = ['x'] then some "x\n" else if id = ['y'] then some "y\n" else none }

/-- A resolved file value over storeFiles, used to exercise the modified
rendering path. -/
def bX : MergeValue := MergeValue.resolved (some (TreeValue.file ['x'] false))

def aY : MergeValue := MergeValue.resolved (some (TreeValue.file ['y'] false))

/-- The far end of the long chain used to probe the depth cap. -/
def chainTip : Commit := { id := ['t'], parents := [], tree := treeEmpty }

/-- Node k of a chain of length L: nodes 0 to L-1 are distinct ids headed by
a c, node L is the tip id. -/
def chainNodeId (L k : Nat) : CommitId :=
  if k = L then ['t'] else 'c' :: List.replicate k 'a'

/-- A store holding exactly the chain: node k has node k+1 as its single
parent, the tip has none.  Only the tip id matches the spec used in the
claims about the depth cap. -/
def chainStore (L : Nat) : Store :=
  { getCommit := fun id =>
      if id = ['t'] then some chainTip
      else
        if id.head? = some 'c' ∧ id.tail.all (fun c => c == 'a') ∧ id.length ≤ L then
          some { id := id, parents := [chainNodeId L id.length], tree := treeEmpty }
        else none,
    rootId := ['r'],
    readFile := fun _ => none }

def chainView : View :=
  { wcCommitIds := [("default", chainNodeId 10000 0)], localBookmarks := [],
    remoteBookmarks := [] }

def chainHandle : RepoHandle :=
  { repo := { store := chainStore 10000, view := chainView }, currentWorkspace := "default" }


/- Shared unfolding and helper lemmas. -/

/-- One step of the uncapped inline revision search, as a definitional
equation usable for rewriting. -/
lemma findCommitLoop_step (s : Store) (spec : List Char) (n : Nat)
    (visited : List CommitId) (x : CommitId) (rest : List CommitId) :
    findCommitLoop s spec (n + 1) visited (x :: rest) =
      if x ∈ visited then findCommitLoop s spec n visited rest
      else
        if spec.isPrefixOf x then
          match s.getCommit x with
          | some c => some c
          | none => findCommitLoop s spec n (x :: visited) rest
        else
          match s.getCommit x with
          | some c =>
            findCommitLoop s spec n (x :: visited)
              (c.parents.foldl (fun st p => if p ∈ x :: visited then st else p :: st) rest)
          | none => findCommitLoop s spec n (x :: visited) rest := rfl

/-- One step of the capped revision search of resolve_revision_specs. -/
lemma resolveLoopCapped_step (s : Store) (spec : List Char) (n : Nat)
    (visited : List CommitId) (x : CommitId) (rest : List CommitId) :
    resolveLoopCapped s spec (n + 1) visited (x :: rest) =
      if MAX_REVISION_SEARCH_DEPTH ≤ visited.length then none
      else if x ∈ visited then resolveLoopCapped s spec n visited rest
      else
        if spec.isPrefixOf x then some x
        else
          match s.getCommit x with
          | some c =>
            resolveLoopCapped s spec n (x :: visited)
              (c.parents.foldl (fun st p => if p ∈ x :: visited then st else p :: st) rest)
          | none => resolveLoopCapped s spec n (x :: visited) rest := rfl

lemma chainNodeId_lt (L k : Nat) (h : k < L) :
    chainNodeId L k = 'c' :: List.replicate k 'a' := by
  unfold chainNodeId
  rw [if_neg (by omega)]

lemma chainNodeId_self (L : Nat) : chainNodeId L L = ['t'] := by
  unfold chainNodeId
  rw [if_pos rfl]

lemma chainNodeId_inj (L j k : Nat)
    (h : chainNodeId L j = chainNodeId L k) : j = k := by
  unfold chainNodeId at h
  by_cases h1 : j = L <;> by_cases h2 : k = L
  · omega
  · rw [if_pos h1, if_neg h2] at h
    exact absurd h.symm (by simp)
  · rw [if_neg h1, if_pos h2] at h
    exact absurd h (by simp)
  · rw [if_neg h1, if_neg h2] at h
    have := congrArg List.length h
    simpa using this

lemma chainStore_getCommit_lt (L k : Nat) (h : k < L) :
    (chainStore L).getCommit (chainNodeId L k) =
      some { id := chainNodeId L k, parents := [chainNodeId L (k + 1)], tree := treeEmpty } := by
  rw [chainNodeId_lt L k h]
  unfold chainStore
  simp only
  rw [if_neg (by simp)]
  rw [if_pos]
  · simp
  · refine ⟨rfl, ?_, ?_⟩
    · simp [List.all_eq_true, List.mem_replicate]
    · simp; omega

lemma chainStore_getCommit_tip (L : Nat) :
    (chainStore L).getCommit ['t'] = some chainTip := by
  unfold chainStore
  simp

lemma t_not_prefixOf_cons (l : List Char) :
    List.isPrefixOf ['t'] ('c' :: l) = false := rfl

lemma t_prefixOf_t : List.isPrefixOf ['t'] (['t'] : List Char) = true := rfl

/-- On the chain store, the UNCAPPED search reaches the tip from any node,
no matter how deep the chain is, given enough fuel for the loop. -/
lemma findCommitLoop_chain (L : Nat) :
    ∀ (n k : Nat) (V : List CommitId), k ≤ L → L + 1 ≤ k + n →
      (∀ j, k ≤ j → j ≤ L → chainNodeId L j ∉ V) →
      findCommitLoop (chainStore L) ['t'] n V [chainNodeId L k] = some chainTip := by
  intro n
  induction n with
  | zero => intro k V hk hfuel _; omega
  | succ n ih =>
    intro k V hk hfuel hV
    have hnotmem : chainNodeId L k ∉ V := hV k le_rfl hk
    by_cases hkL : k = L
    · subst hkL
      rw [chainNodeId_self] at hnotmem ⊢
      rw [findCommitLoop_step]
      rw [if_neg hnotmem]
      rw [if_pos t_prefixOf_t]
      rw [chainStore_getCommit_tip]
    · have hklt : k < L := lt_of_le_of_ne hk hkL
      rw [findCommitLoop_step]
      rw [if_neg hnotmem]
      rw [chainNodeId_lt L k hklt]
      rw [if_neg (by rw [t_not_prefixOf_cons]; exact Bool.false_ne_true)]
      rw [← chainNodeId_lt L k hklt, chainStore_getCommit_lt L k hklt]
      simp only [List.foldl_cons, List.foldl_nil]
      have hnext_fresh : chainNodeId L (k + 1) ∉ chainNodeId L k :: V := by
        intro hmem
        rcases List.mem_cons.mp hmem with heq | hmemV
        · have := chainNodeId_inj L (k + 1) k heq
          omega
        · exact hV (k + 1) (by omega) (by omega) hmemV
      rw [if_neg hnext_fresh]
      apply ih (k + 1) (chainNodeId L k :: V) (by omega) (by omega)
      intro j hj1 hj2 hmem
      rcases List.mem_cons.mp hmem with heq | hmemV
      · have := chainNodeId_inj L j k heq
        omega
      · exact hV j (by omega) hj2 hmemV

/-- On a chain of 10000 commits before the only match, the CAPPED search of
resolve_revision_specs gives up: when the walk reaches the matching tip the
visited set has already hit MAX_REVISION_SEARCH_DEPTH. -/
lemma resolveLoopCapped_chain :
    ∀ (n k : Nat) (V : List CommitId), k ≤ 10000 → 10001 ≤ k + n → V.length = k →
      (∀ j, k ≤ j → j ≤ 10000 → chainNodeId 10000 j ∉ V) →
      resolveLoopCapped (chainStore 10000) ['t'] n V [chainNodeId 10000 k] = none := by
  intro n
  induction n with
  | zero => intro k V hk hfuel _ _; omega
  | succ n ih =>
    intro k V hk hfuel hlen hV
    rw [resolveLoopCapped_step]
    by_cases hcap : k = 10000
    · rw [if_pos]
      rw [hlen, hcap]
      decide
    · have hklt : k < 10000 := lt_of_le_of_ne hk hcap
      rw [if_neg (by rw [hlen]; unfold MAX_REVISION_SEARCH_DEPTH; omega)]
      rw [if_neg (hV k le_rfl hk)]
      rw [chainNodeId_lt 10000 k hklt]
      rw [if_neg (by rw [t_not_prefixOf_cons]; exact Bool.false_ne_true)]
      rw [← chainNodeId_lt 10000 k hklt, chainStore_getCommit_lt 10000 k hklt]
      simp only [List.foldl_cons, List.foldl_nil]
      have hnext_fresh : chainNodeId 10000 (k + 1) ∉ chainNodeId 10000 k :: V := by
        intro hmem
        rcases List.mem_cons.mp hmem with heq | hmemV
        · have := chainNodeId_inj 10000 (k + 1) k heq
          omega
        · exact hV (k + 1) (by omega) (by omega) hmemV
      rw [if_neg hnext_fresh]
      apply ih (k + 1) (chainNodeId 10000 k :: V) (by omega) (by omega) (by simp [hlen])
      intro j hj1 hj2 hmem
      rcases List.mem_cons.mp hmem with heq | hmemV
      · have := chainNodeId_inj 10000 j k heq
        omega
      · exact hV j (by omega) hj2 hmemV

/-- The inline (uncapped) resolver of jj_set_bookmark finds the tip of the
10001-commit chain even though it lies beyond the 10,000 depth cap. -/
lemma findCommitByPrefix_chain :
    findCommitByPrefix chainHandle ['t'] 10001 = some chainTip := by
  unfold findCommitByPrefix
  have hseed : pushAll [] (chainHandle.repo.view.wcCommitIds.map Prod.snd) =
      [chainNodeId 10000 0] := rfl
  rw [hseed]
  exact findCommitLoop_chain 10000 10001 0 [] (by omega) (by omega)
    (fun j _ _ hm => absurd hm (List.not_mem_nil _))

lemma resolve_revision_specs_cons_none (h : RepoHandle) (fuel : Nat) (spec : List Char)
    (rest : List (List Char))
    (hnone : resolveLoopCapped h.repo.store spec fuel []
      (pushAll [] (h.repo.view.wcCommitIds.map Prod.snd)) = none) :
    resolve_revision_specs h fuel (spec :: rest) =
      Except.error ("Revision not found: " ++ String.mk spec) := by
  unfold resolve_revision_specs
  rw [hnone]

/-- The self-reaching step of the ancestry walk: the walk started at the
target itself succeeds immediately. -/
lemma ancestorWalk_self (s : Store) (t : CommitId) (n : Nat) (rest : List CommitId) :
    ancestorWalk s t (n + 1) [] (t :: rest) = true := by
  simp [ancestorWalk]

/-- With both override flags set and a successful transaction, a resolved
revision is always accepted. -/
lemma jj_set_bookmark_skip_checks (h : RepoHandle) (name : String) (rev : List Char)
    (fuel : Nat) (target : Commit)
    (hres : findCommitByPrefix h rev fuel = some target) :
    (jj_set_bookmark h name rev true true fuel true).1 = JjResult.success "" := by
  unfold jj_set_bookmark
  simp only [hres]
  simp

/- Frame lemmas: every error path of a mutation returns the input handle. -/

lemma set_bookmark_error_frame (h : RepoHandle) (name : String) (rev : List Char)
    (ab ii : Bool) (fuel : Nat) (txOk : Bool) :
    (jj_set_bookmark h name rev ab ii fuel txOk).1.isError = true →
      (jj_set_bookmark h name rev ab ii fuel txOk).2 = h := by
  simp only [jj_set_bookmark]
  split
  · intro _; rfl
  · split
    · intro _; rfl
    · split
      · intro _; rfl
      · split
        · intro _; rfl
        · split
          · intro hc; simp [JjResult.isError] at hc
          · intro _; rfl

lemma workspace_forget_error_frame (h : RepoHandle) (ws : String) (txOk : Bool) :
    (jj_workspace_forget h ws txOk).1.isError = true →
      (jj_workspace_forget h ws txOk).2 = h := by
  simp only [jj_workspace_forget]
  split
  · intro _; rfl
  · split
    · intro _; rfl
    · split
      · intro hc; simp [JjResult.isError] at hc
      · intro _; rfl

lemma workspace_add_rest_error_frame (h : RepoHandle) (fs : FS) (wsName : String)
    (specs : List (List Char)) (fuel : Nat) (initOk : Bool)
    (ncid : Option CommitId) (txOk : Bool) :
    (workspaceAddRest h fs wsName specs fuel initOk ncid txOk).1.isError = true →
      (workspaceAddRest h fs wsName specs fuel initOk ncid txOk).2.1 = h := by
  simp only [workspaceAddRest]
  repeat' split
  all_goals intro hc
  all_goals first
    | rfl
    | simp [JjResult.isError] at hc

lemma workspace_add_error_frame (h : RepoHandle) (fs : FS) (dest wsName : String)
    (specs : List (List Char)) (fuel : Nat) (createOk initOk : Bool)
    (ncid : Option CommitId) (txOk : Bool) :
    (jj_workspace_add h fs dest wsName specs fuel createOk initOk ncid txOk).1.isError = true →
      (jj_workspace_add h fs dest wsName specs fuel createOk initOk ncid txOk).2.1 = h := by
  simp only [jj_workspace_add]
  split
  · split
    · intro _; rfl
    · split
      · intro _; rfl
      · exact workspace_add_rest_error_frame h fs wsName specs fuel initOk ncid txOk
  · split
    · exact workspace_add_rest_error_frame h _ wsName specs fuel initOk ncid txOk
    · intro _; rfl

/- Diff rendering lemmas. -/

lemma diffLoopLinesF_all_minus :
    ∀ (n : Nat) (bs : List String), bs.length ≤ n →
      diffLoopLinesF n bs [] = bs.map (fun b => "-" ++ b) := by
  intro n
  induction n with
  | zero =>
    intro bs hb
    rw [List.length_eq_zero.mp (Nat.le_zero.mp hb)]
    rfl
  | succ n ih =>
    intro bs hb
    match bs with
    | [] => rfl
    | b :: restB =>
      simp only [diffLoopLinesF, List.map_cons]
      rw [ih restB (by simp at hb; omega)]

/-- For line lists with no common line, the greedy loop first emits every
after-line as an insertion, then every before-line as a deletion. -/
lemma diffLoopLinesF_disjoint :
    ∀ (n : Nat) (bs aLines : List String), bs.length + aLines.length ≤ n →
      (∀ a ∈ aLines, a ∉ bs) →
      diffLoopLinesF n bs aLines =
        aLines.map (fun a => "+" ++ a) ++ bs.map (fun b => "-" ++ b) := by
  intro n
  induction n with
  | zero =>
    intro bs aLines hlen _
    have hb : bs = [] := List.length_eq_zero.mp (by omega)
    have ha : aLines = [] := List.length_eq_zero.mp (by omega)
    subst hb; subst ha; rfl
  | succ n ih =>
    intro bs aLines hlen hdisj
    match aLines with
    | [] => simp [diffLoopLinesF_all_minus (n + 1) bs (by simpa using hlen)]
    | a :: restA =>
      have hanotin : a ∉ bs := hdisj a (List.mem_cons_self a restA)
      match bs with
      | [] =>
        simp only [diffLoopLinesF, List.map_cons, List.map_nil, List.append_nil,
          List.cons_append]
        rw [ih [] restA (by simp at hlen ⊢; omega) (fun x hx => List.not_mem_nil x)]
        simp
      | b :: restB =>
        have hbne : b ≠ a := fun he => hanotin (he ▸ List.mem_cons_self b restB)
        simp only [diffLoopLinesF]
        rw [if_neg hbne, if_neg hanotin]
        rw [ih (b :: restB) restA (by simp at hlen ⊢; omega)
          (fun x hx => hdisj x (List.mem_cons_of_mem a hx))]
        simp

lemma diffLoopLines_disjoint (bs aLines : List String)
    (hdisj : ∀ a ∈ aLines, a ∉ bs) :
    diffLoopLines bs aLines =
      aLines.map (fun a => "+" ++ a) ++ bs.map (fun b => "-" ++ b) :=
  diffLoopLinesF_disjoint (bs.length + aLines.length) bs aLines le_rfl hdisj

lemma generate_unified_diff_expand (before after : String)
    (h : ¬(rustLines before = [] ∧ rustLines after = [])) :
    generate_unified_diff before after =
      hunkHeader (rustLines before).length (rustLines after).length ++
        String.join ((diffLoopLines (rustLines before) (rustLines after)).map
          (fun l => l ++ "\n")) := by
  unfold generate_unified_diff
  rw [if_neg]
  intro hmax
  rcases Nat.max_eq_zero_iff.mp hmax with ⟨h1, h2⟩
  exact h ⟨List.length_eq_zero.mp h1, List.length_eq_zero.mp h2⟩

lemma strAppend_data (s t : String) : (s ++ t).data = s.data ++ t.data := by
  cases s; cases t; rfl

lemma head_data_plus (a : String) : ("+" ++ a).data.head? = some '+' := by
  rw [strAppend_data]; rfl

lemma head_data_minus (a : String) : ("-" ++ a).data.head? = some '-' := by
  rw [strAppend_data]; rfl

lemma head_data_space (a : String) : (" " ++ a).data.head? = some ' ' := by
  rw [strAppend_data]; rfl

lemma hunkHeader_head (n m : Nat) : (hunkHeader n m).data.head? = some '@' := by
  unfold hunkHeader
  rw [strAppend_data, strAppend_data, strAppend_data, strAppend_data]
  rfl

/-- Every line emitted by the greedy diff loop starts with a space, a plus
or a minus. -/
lemma diffLoopLinesF_head :
    ∀ (n : Nat) (bs aLines : List String) (l : String), l ∈ diffLoopLinesF n bs aLines →
      l.data.head? = some ' ' ∨ l.data.head? = some '+' ∨ l.data.head? = some '-' := by
  intro n
  induction n with
  | zero => intro bs aLines l hl; exact absurd hl (List.not_mem_nil l)
  | succ n ih =>
    intro bs aLines l hl
    match bs, aLines with
    | [], [] => exact absurd hl (List.not_mem_nil l)
    | [], a :: restA =>
      rcases List.mem_cons.mp hl with he | hm
      · exact Or.inr (Or.inl (he ▸ head_data_plus a))
      · exact ih [] restA l hm
    | b :: restB, [] =>
      rcases List.mem_cons.mp hl with he | hm
      · exact Or.inr (Or.inr (he ▸ head_data_minus b))
      · exact ih restB [] l hm
    | b :: restB, a :: restA =>
      simp only [diffLoopLinesF] at hl
      by_cases hba : b = a
      · rw [if_pos hba] at hl
        rcases List.mem_cons.mp hl with he | hm
        · exact Or.inl (he ▸ head_data_space b)
        · exact ih restB restA l hm
      · rw [if_neg hba] at hl
        by_cases hmem : a ∈ b :: restB
        · rw [if_pos hmem] at hl
          rcases List.mem_cons.mp hl with he | hm
          · exact Or.inr (Or.inr (he ▸ head_data_minus b))
          · exact ih restB (a :: restA) l hm
        · rw [if_neg hmem] at hl
          rcases List.mem_cons.mp hl with he | hm
          · exact Or.inr (Or.inl (he ▸ head_data_plus a))
          · exact ih (b :: restB) restA l hm

lemma diffLoopLines_no_header (bs aLines : List String) (l : String)
    (hl : l ∈ diffLoopLines bs aLines) : l.data.head? ≠ some '@' := by
  rcases diffLoopLinesF_head (bs.length + aLines.length) bs aLines l hl with h | h | h <;>
    rw [h] <;> intro hc <;> exact absurd (Option.some.inj hc) (by decide)

/- Working-copy change classification lemmas. -/

lemma classifyStatus_cases (b a : Bool) :
    (classifyStatus b a = "added" ∨ classifyStatus b a = "deleted" ∨
      classifyStatus b a = "modified") ∧
    (classifyStatus b a = "added" ↔ (b = true ∧ a = false)) ∧
    (classifyStatus b a = "deleted" ↔ (b = false ∧ a = true)) ∧
    (classifyStatus b a = "modified" ↔ b = a) := by
  cases b <;> cases a <;> simp [classifyStatus]

lemma changes_entries_mem (entries : List WcDiffEntry) (info : FileChangeInfo)
    (hmem : info ∈ jj_get_working_copy_changes_entries entries) :
    ∃ e ∈ entries, ∃ v, e.values = some v ∧ info.path = e.path ∧
      info.status = classifyStatus v.beforeAbsent v.afterAbsent := by
  unfold jj_get_working_copy_changes_entries at hmem
  rcases List.mem_filterMap.mp hmem with ⟨e, he, heq⟩
  rcases Option.map_eq_some'.mp heq with ⟨v, hv, hveq⟩
  exact ⟨e, he, v, hv, by rw [← hveq], by rw [← hveq]⟩

/- File-contents lemmas. -/

lemma get_file_contents_no_parent (h : RepoHandle) (validPath : String → Bool)
    (path : String) (pr : String × CommitId) (wc : Commit)
    (hfind : h.repo.view.wcCommitIds.find? (fun p => p.1 == h.currentWorkspace) = some pr)
    (hwc : h.repo.store.getCommit pr.2 = some wc)
    (hpar : wc.parents = []) :
    jj_get_file_contents h validPath path =
      Except.ok { before := "", after := "", path := path } := by
  unfold jj_get_file_contents
  simp only [hfind, hwc, hpar]

lemma get_file_contents_absent_both (h : RepoHandle) (validPath : String → Bool)
    (path : String) (pr : String × CommitId) (wc parent : Commit) (pId : CommitId)
    (rest : List CommitId)
    (hfind : h.repo.view.wcCommitIds.find? (fun p => p.1 == h.currentWorkspace) = some pr)
    (hwc : h.repo.store.getCommit pr.2 = some wc)
    (hpar : wc.parents = pId :: rest)
    (hparent : h.repo.store.getCommit pId = some parent)
    (hvalid : validPath path = true)
    (hbt : parent.tree path = MergeValue.resolved none)
    (hat : wc.tree path = MergeValue.resolved none) :
    jj_get_file_contents h validPath path =
      Except.ok { before := "", after := "", path := path } := by
  unfold jj_get_file_contents
  simp only [hfind, hwc, hpar, hparent, hvalid, if_true, hbt, hat]
  rfl

lemma get_file_content_uniform (s : Store) :
    get_file_content s (MergeValue.resolved none) = "" ∧
    get_file_content s MergeValue.conflicted = "" ∧
    ∀ (fid : CommitId) (ex : Bool), s.readFile fid = none →
      get_file_content s (MergeValue.resolved (some (TreeValue.file fid ex))) = "" := by
  refine ⟨rfl, rfl, ?_⟩
  intro fid ex hread
  simp only [get_file_content, hread]


/- Claim theorems. -/

/-- C1 (counterexample): the root-commit immutability check is inside the
ignore_immutable guard, so with ignoreImmutable set, setting a bookmark on a
revision prefix that resolves to the root commit SUCCEEDS rather than failing
with the ImmutableTarget error. -/
theorem C1_counterexample :
    handleW.repo.store.rootId = ['a'] ∧
    (findCommitByPrefix handleW ['a'] 3).map Commit.id = some ['a'] ∧
    (jj_set_bookmark handleW "main" ['a'] false true 3 true).1 = JjResult.success "" := by
  decide

/-- C1 (amended): when ignoreImmutable is false and the revision prefix
resolves to the root commit, setBookmark fails with the ImmutableTarget
(root commit) error and leaves the handle unchanged; when ignoreImmutable is
true the root check is skipped entirely. -/
theorem C1_root_immutable_requires_flag (h : RepoHandle) (name : String) (rev : List Char)
    (ab : Bool) (fuel : Nat) (txOk : Bool) (target : Commit)
    (hres : findCommitByPrefix h rev fuel = some target)
    (hroot : target.id = h.repo.store.rootId) :
    jj_set_bookmark h name rev ab false fuel txOk =
      (JjResult.error "Cannot set bookmark on immutable revision (root commit)", h) := by
  unfold jj_set_bookmark
  simp only [hres]
  rw [if_pos (And.intro trivial hroot)]

/-- C1 witness: the amended theorem applied to a concrete handle whose
resolver yields the root commit. -/
theorem C1_witness :
    jj_set_bookmark handleW "main" ['a'] false false 3 true =
      (JjResult.error "Cannot set bookmark on immutable revision (root commit)", handleW) :=
  C1_root_immutable_requires_flag handleW "main" ['a'] false 3 true rootCommitW rfl rfl

/-- C2 (counterexample): with a bookmark currently at commit b, resolving the
same commit b and calling setBookmark with allowBackwards false is REJECTED
with the BackwardsMove error, contrary to the claim that it succeeds. -/
theorem C2_counterexample :
    handleB.repo.view.getLocalBookmarkNormal "main" = some ['b'] ∧
    (findCommitByPrefix handleB ['b'] 3).map Commit.id = some ['b'] ∧
    (jj_set_bookmark handleB "main" ['b'] false false 3 true).1 =
      JjResult.error "Cannot move bookmark backwards (use allow_backwards flag)" := by
  decide

/-- C2 (amended): the backwards-move walk starts at the bookmark's current
target and immediately finds it when the new target is the same commit: a
non-strict ancestor is rejected, so setting a bookmark to its current target
with allowBackwards false fails with BackwardsMove. -/
theorem C2_same_commit_rejected (h : RepoHandle) (name : String) (rev : List Char)
    (fuel : Nat) (txOk : Bool) (target cur : Commit)
    (hres : findCommitByPrefix h rev fuel = some target)
    (hnotroot : target.id ≠ h.repo.store.rootId)
    (hremote : h.repo.view.remoteBookmarks = [])
    (hbk : h.repo.view.getLocalBookmarkNormal name = some target.id)
    (hcur : h.repo.store.getCommit target.id = some cur)
    (hcurid : cur.id = target.id) :
    jj_set_bookmark h name rev false false fuel txOk =
      (JjResult.error "Cannot move bookmark backwards (use allow_backwards flag)", h) := by
  unfold jj_set_bookmark
  simp only [hres]
  rw [if_neg (fun hc => hnotroot hc.2)]
  rw [if_neg (by simp [hremote])]
  simp only [hbk, hcur, hcurid]
  rw [if_pos (And.intro trivial (by
    rw [show (100 : Nat) = 99 + 1 from rfl]
    exact ancestorWalk_self h.repo.store target.id 99 []))]

/-- C2 witness: the amended theorem applied to a concrete handle with
bookmark main at commit b and the revision prefix resolving to b itself. -/
theorem C2_witness :
    jj_set_bookmark handleB "main" ['b'] false false 3 true =
      (JjResult.error "Cannot move bookmark backwards (use allow_backwards flag)", handleB) :=
  C2_same_commit_rejected handleB "main" ['b'] 3 true childCommitW childCommitW rfl
    (by decide) rfl rfl rfl rfl

/-- C3 (counterexample): on a chain whose only matching commit lies 10,000
commits below every workspace head, the inline resolver used by setBookmark
and getRevisionDiff FINDS the commit (it has no depth cap), while the capped
walk of resolve_revision_specs returns none on the same input — so the
prefix-resolution search of setBookmark does not return NotFound at the cap. -/
theorem C3_counterexample :
    findCommitByPrefix chainHandle ['t'] 10001 = some chainTip ∧
    resolveLoopCapped (chainStore 10000) ['t'] 10001 [] [chainNodeId 10000 0] = none :=
  ⟨findCommitByPrefix_chain,
   resolveLoopCapped_chain 10001 0 [] (by omega) (by omega) rfl
     (fun j _ _ hm => absurd hm (List.not_mem_nil _))⟩

/-- C3 (amended): only resolve_revision_specs — the resolver used by
workspaceAdd — stops at the 10,000-commit cap and reports NotFound for a
match beyond it; the inline searches in setBookmark and getRevisionDiff have
no cap, so on the same repository the setBookmark call succeeds. -/
theorem C3_cap_only_in_workspace_add :
    resolve_revision_specs chainHandle 10001 [['t']] =
      Except.error "Revision not found: t" ∧
    (jj_set_bookmark chainHandle "main" ['t'] true true 10001 true).1 =
      JjResult.success "" := by
  constructor
  · have h1 := resolve_revision_specs_cons_none chainHandle 10001 ['t'] [] (by
      have hseed : pushAll [] (chainHandle.repo.view.wcCommitIds.map Prod.snd) =
          [chainNodeId 10000 0] := rfl
      rw [hseed]
      exact resolveLoopCapped_chain 10001 0 [] (by omega) (by omega) rfl
        (fun j _ _ hm => absurd hm (List.not_mem_nil _)))
    rw [h1]
    exact congrArg Except.error (by decide)
  · exact jj_set_bookmark_skip_checks chainHandle "main" ['t'] 10001 chainTip
      findCommitByPrefix_chain

/-- C4 (counterexample): for the disjoint one-line texts a and b, the hunk
body is the insertion line FOLLOWED by the deletion line, not deletions
first as claimed. -/
theorem C4_counterexample :
    generate_unified_diff "a\n" "b\n" = "@@ -1,1 +1,1 @@\n+b\n-a\n" ∧
    generate_unified_diff "a\n" "b\n" ≠ "@@ -1,1 +1,1 @@\n-a\n+b\n" := by
  decide

/-- C4 (amended): for texts with no line in common (both non-empty), the
rendered hunk body consists of all insertion lines first, followed by all
deletion lines, with no context lines. -/
theorem C4_disjoint_insertions_then_deletions (before after : String)
    (hdisj : ∀ l ∈ rustLines before, l ∉ rustLines after)
    (hb : rustLines before ≠ []) (ha : rustLines after ≠ []) :
    generate_unified_diff before after =
      hunkHeader (rustLines before).length (rustLines after).length ++
        String.join
          (((rustLines after).map (fun a => "+" ++ a) ++
            (rustLines before).map (fun b => "-" ++ b)).map (fun l => l ++ "\n")) := by
  rw [generate_unified_diff_expand before after (by rintro ⟨h1, _⟩; exact hb h1)]
  rw [diffLoopLines_disjoint (rustLines before) (rustLines after)
    (fun a ha2 hb2 => hdisj a hb2 ha2)]

/-- C4 witness: the amended theorem applied to the concrete disjoint texts. -/
theorem C4_witness :
    generate_unified_diff "a\n" "b\n" =
      hunkHeader (rustLines "a\n").length (rustLines "b\n").length ++
        String.join
          (((rustLines "b\n").map (fun a => "+" ++ a) ++
            (rustLines "a\n").map (fun b => "-" ++ b)).map (fun l => l ++ "\n")) :=
  C4_disjoint_insertions_then_deletions "a\n" "b\n" (by decide) (by decide) (by decide)

/-- C5 (confirmed): for a modified entry (both sides present) whose two sides
do not both have zero lines, the rendered block is the git header, the two
path markers, then EXACTLY ONE synthetic hunk header reporting the total line
counts of the two sides, then the hunk body, none of whose lines starts with
an at sign (each starts with a space, plus or minus). -/
theorem C5_modified_single_hunk_header (s : Store) (path : String)
    (before after : MergeValue)
    (hb : before.isAbsent = false) (ha : after.isAbsent = false)
    (hnz : ¬(rustLines (get_file_content s before) = [] ∧
      rustLines (get_file_content s after) = [])) :
    renderDiffEntry s path before after =
      "diff --git a/" ++ path ++ " b/" ++ path ++ "\n" ++ ("--- a/" ++ path ++ "\n") ++
        ("+++ b/" ++ path ++ "\n") ++
        (hunkHeader (rustLines (get_file_content s before)).length
            (rustLines (get_file_content s after)).length ++
          String.join ((diffLoopLines (rustLines (get_file_content s before))
            (rustLines (get_file_content s after))).map (fun l => l ++ "\n"))) ++ "\n" ∧
    (hunkHeader (rustLines (get_file_content s before)).length
        (rustLines (get_file_content s after)).length).data.head? = some '@' ∧
    ∀ l ∈ diffLoopLines (rustLines (get_file_content s before))
        (rustLines (get_file_content s after)), l.data.head? ≠ some '@' := by
  refine ⟨?_, hunkHeader_head _ _, fun l hl => diffLoopLines_no_header _ _ l hl⟩
  unfold renderDiffEntry
  rw [if_pos (And.intro hb ha)]
  rw [generate_unified_diff_expand _ _ hnz]

/-- C5 witness: the structural conjunct of the theorem at a concrete store
with one-line files x and y. -/
theorem C5_witness :
    renderDiffEntry storeFiles "f" bX aY =
      "diff --git a/" ++ "f" ++ " b/" ++ "f" ++ "\n" ++ ("--- a/" ++ "f" ++ "\n") ++
        ("+++ b/" ++ "f" ++ "\n") ++
        (hunkHeader (rustLines (get_file_content storeFiles bX)).length
            (rustLines (get_file_content storeFiles aY)).length ++
          String.join ((diffLoopLines (rustLines (get_file_content storeFiles bX))
            (rustLines (get_file_content storeFiles aY))).map (fun l => l ++ "\n"))) ++ "\n" :=
  (C5_modified_single_hunk_header storeFiles "f" bX aY rfl rfl (by decide)).1

/-- C6 (confirmed): every entry produced by the working-copy change
collection has status exactly one of added, deleted or modified, and the
status is determined solely by the before/after absence bits of the entry it
came from: added iff before absent and after present, deleted iff before
present and after absent, modified otherwise. -/
theorem C6_status_classification (entries : List WcDiffEntry) (info : FileChangeInfo)
    (hmem : info ∈ jj_get_working_copy_changes_entries entries) :
    (info.status = "added" ∨ info.status = "deleted" ∨ info.status = "modified") ∧
    ∃ e ∈ entries, ∃ v, e.values = some v ∧ info.path = e.path ∧
      info.status = classifyStatus v.beforeAbsent v.afterAbsent ∧
      (info.status = "added" ↔ (v.beforeAbsent = true ∧ v.afterAbsent = false)) ∧
      (info.status = "deleted" ↔ (v.beforeAbsent = false ∧ v.afterAbsent = true)) ∧
      (info.status = "modified" ↔ v.beforeAbsent = v.afterAbsent) := by
  rcases changes_entries_mem entries info hmem with ⟨e, he, v, hv, hpath, hstat⟩
  have hc := classifyStatus_cases v.beforeAbsent v.afterAbsent
  refine ⟨by rw [hstat]; exact hc.1, e, he, v, hv, hpath, hstat, ?_, ?_, ?_⟩
  · rw [hstat]; exact hc.2.1
  · rw [hstat]; exact hc.2.2.1
  · rw [hstat]; exact hc.2.2.2

/-- C6 witness: the theorem applied to a one-entry stream with both sides
present, classified as modified. -/
theorem C6_witness :
    (({ path := "f", status := "modified" } : FileChangeInfo).status = "added" ∨
     ({ path := "f", status := "modified" } : FileChangeInfo).status = "deleted" ∨
     ({ path := "f", status := "modified" } : FileChangeInfo).status = "modified") :=
  (C6_status_classification
    [{ path := "f", values := some { beforeAbsent := false, afterAbsent := false } }]
    { path := "f", status := "modified" } (by decide)).1

/-- C7 (confirmed): whenever setBookmark, workspaceForget or workspaceAdd
returns an error — including a failed transaction commit — the returned
handle is the input handle: the snapshot reference is replaced only on a
successful transaction commit. -/
theorem C7_error_leaves_snapshot (h : RepoHandle) (name : String) (rev : List Char)
    (ab ii : Bool) (fuel : Nat) (txOk : Bool) (ws : String) (txOk2 : Bool)
    (fs : FS) (dest wsName : String) (specs : List (List Char)) (fuel2 : Nat)
    (createOk initOk : Bool) (ncid : Option CommitId) (txOk3 : Bool) :
    ((jj_set_bookmark h name rev ab ii fuel txOk).1.isError = true →
      (jj_set_bookmark h name rev ab ii fuel txOk).2 = h) ∧
    ((jj_workspace_forget h ws txOk2).1.isError = true →
      (jj_workspace_forget h ws txOk2).2 = h) ∧
    ((jj_workspace_add h fs dest wsName specs fuel2 createOk initOk ncid txOk3).1.isError =
        true →
      (jj_workspace_add h fs dest wsName specs fuel2 createOk initOk ncid txOk3).2.1 = h) :=
  ⟨set_bookmark_error_frame h name rev ab ii fuel txOk,
   workspace_forget_error_frame h ws txOk2,
   workspace_add_error_frame h fs dest wsName specs fuel2 createOk initOk ncid txOk3⟩

/-- C7 witness: three concrete failing mutations, each leaving the handle
untouched. -/
theorem C7_witness :
    (jj_set_bookmark handleW "main" ['z'] true true 3 true).2 = handleW ∧
    (jj_workspace_forget handleW "default" true).2 = handleW ∧
    (jj_workspace_add handleW fs0 "dst" "w2" [['z']] 10 true true (some ['n']) true).2.1 =
      handleW := by
  have hC7 := C7_error_leaves_snapshot handleW "main" ['z'] true true 3 true "default" true
    fs0 "dst" "w2" [['z']] 10 true true (some ['n']) true
  exact ⟨hC7.1 (by decide), hC7.2.1 (by decide), hC7.2.2 (by decide)⟩

/-- C8 (confirmed): forgetting the handle's own current workspace always
fails with CannotForgetCurrent — the check runs before any existence lookup
or transaction, for every view and transaction outcome — and forgetting a
name not registered in the view fails with NotFound; both leave the handle
unchanged. -/
theorem C8_forget_guards (h : RepoHandle) (name : String) (txOk : Bool) :
    (name = h.currentWorkspace →
      jj_workspace_forget h name txOk =
        (JjResult.error "Cannot forget current workspace", h)) ∧
    (name ≠ h.currentWorkspace → name ∉ h.repo.view.wcCommitIds.map Prod.fst →
      jj_workspace_forget h name txOk =
        (JjResult.error ("Workspace not found: " ++ name), h)) := by
  constructor
  · intro he
    unfold jj_workspace_forget
    rw [if_pos he]
  · intro hne hnm
    unfold jj_workspace_forget
    rw [if_neg hne, if_pos hnm]

/-- C8 witness: both guards at a concrete handle. -/
theorem C8_witness :
    jj_workspace_forget handleW "default" true =
      (JjResult.error "Cannot forget current workspace", handleW) ∧
    jj_workspace_forget handleW "ghost" true =
      (JjResult.error ("Workspace not found: " ++ "ghost"), handleW) :=
  ⟨(C8_forget_guards handleW "default" true).1 rfl,
   (C8_forget_guards handleW "ghost" true).2 (by decide) (by decide)⟩

/-- C9 (counterexample): with an absent destination and a revision spec that
fails to resolve, workspaceAdd returns the NotFound error but the destination
directory HAS been created (the creation log is non-empty), refuting the
claim that resolution happens before directory creation. -/
theorem C9_counterexample :
    (jj_workspace_add handleW fs0 "dst" "w2" [['z']] 10 true true (some ['n']) true).1 =
      JjResult.error "Revision not found: z" ∧
    (jj_workspace_add handleW fs0 "dst" "w2" [['z']] 10 true true (some ['n']) true).2.2.created =
      ["dst"] := by
  decide

/-- C9 (amended): workspaceAdd validates and creates the destination
directory BEFORE resolving explicit parent revisions, so when resolution
fails the call returns the NotFound error with the snapshot untouched, but a
previously absent destination directory has already been created on disk. -/
theorem C9_resolution_after_mkdir (h : RepoHandle) (fs : FS) (dest wsName : String)
    (specs : List (List Char)) (fuel : Nat) (initOk : Bool) (ncid : Option CommitId)
    (txOk : Bool) (msg : String)
    (hnew : dest ∉ fs.existing)
    (hspecs : specs.isEmpty = false)
    (hres : resolve_revision_specs h fuel specs = Except.error msg) :
    jj_workspace_add h fs dest wsName specs fuel true initOk ncid txOk =
      (JjResult.error msg, h,
        { fs with existing := dest :: fs.existing, created := dest :: fs.created }) := by
  unfold jj_workspace_add
  rw [if_neg hnew, if_pos rfl]
  unfold workspaceAddRest
  rw [if_neg (by rw [hspecs]; exact Bool.false_ne_true)]
  rw [hres]

/-- C9 witness: the amended theorem at a concrete failing spec. -/
theorem C9_witness :
    jj_workspace_add handleW fs0 "dst" "w2" [['z']] 10 true true (some ['n']) true =
      (JjResult.error ("Revision not found: " ++ String.mk ['z']), handleW,
        { existing := ["dst"], fileAt := [], nonEmptyDir := [], created := ["dst"] }) :=
  C9_resolution_after_mkdir handleW fs0 "dst" "w2" [['z']] 10 true (some ['n']) true
    ("Revision not found: " ++ String.mk ['z']) (by decide) rfl rfl

/-- C10 (confirmed): getFileContents succeeds with empty before and after
strings for every path when the working-copy commit has no parent, and for
every valid path absent from both trees when it has one; and get_file_content
renders absent, conflicted and unreadable file values uniformly as the empty
string. -/
theorem C10_file_contents_absent_empty (h : RepoHandle) (validPath : String → Bool)
    (path : String) (pr : String × CommitId) (wc parent : Commit) (pId : CommitId)
    (rest : List CommitId) :
    (h.repo.view.wcCommitIds.find? (fun p => p.1 == h.currentWorkspace) = some pr →
      h.repo.store.getCommit pr.2 = some wc → wc.parents = [] →
      jj_get_file_contents h validPath path =
        Except.ok { before := "", after := "", path := path }) ∧
    (h.repo.view.wcCommitIds.find? (fun p => p.1 == h.currentWorkspace) = some pr →
      h.repo.store.getCommit pr.2 = some wc → wc.parents = pId :: rest →
      h.repo.store.getCommit pId = some parent → validPath path = true →
      parent.tree path = MergeValue.resolved none → wc.tree path = MergeValue.resolved none →
      jj_get_file_contents h validPath path =
        Except.ok { before := "", after := "", path := path }) ∧
    (∀ s : Store, get_file_content s (MergeValue.resolved none) = "" ∧
      get_file_content s MergeValue.conflicted = "" ∧
      ∀ (fid : CommitId) (ex : Bool), s.readFile fid = none →
        get_file_content s (MergeValue.resolved (some (TreeValue.file fid ex))) = "") :=
  ⟨fun h1 h2 h3 => get_file_contents_no_parent h validPath path pr wc h1 h2 h3,
   fun h1 h2 h3 h4 h5 h6 h7 =>
     get_file_contents_absent_both h validPath path pr wc parent pId rest h1 h2 h3 h4 h5 h6 h7,
   get_file_content_uniform⟩

/-- C10 witness: a path present in neither tree of a concrete handle yields
empty contents. -/
theorem C10_witness :
    jj_get_file_contents handleW (fun _ => true) "nope" =
      Except.ok { before := "", after := "", path := "nope" } :=
  (C10_file_contents_absent_empty handleW (fun _ => true) "nope" ("default", ['b'])
      childCommitW rootCommitW ['a'] []).2.1 rfl rfl rfl rfl rfl rfl rfl

end Jjazy
